import Mathlib

/-!
Verification of the menu parsing / aggregation / export core of the
Warung Makan application (src/coba1/main.py) against its specification.

The Python source is shallowly embedded: numeric values that the program
handles as Python ints/floats are modelled as exact rationals (ℚ); the
IEEE-754 specials (nan, inf) and the shortest-roundtrip float repr are
outside the rational model and are noted where relevant.  Strings are
Lean `String`s; character-level work is done on `List Char` (`String.data`).
-/

namespace Coba1

/-- The whitespace characters removed by Python `str.strip()` (ASCII part). -/
def isPySpace (c : Char) : Bool :=
  c == ' ' || c == '\t' || c == '\n' || c == '\r' || c == '\x0b' || c == '\x0c'

/-- Python `str.strip()` on a character list: drop leading and trailing whitespace. -/
def pyStripL (cs : List Char) : List Char :=
  ((cs.dropWhile isPySpace).reverse.dropWhile isPySpace).reverse

/-- Python `str.strip()` on strings. -/
def pyStrip (s : String) : String :=
  String.mk (pyStripL s.data)

/-- Decimal digit test. -/
def isDigitC (c : Char) : Bool :=
  '0' ≤ c && c ≤ '9'

/-- Value of a list of decimal digits, most significant first. -/
def digitsVal (cs : List Char) : Nat :=
  cs.foldl (fun a c => a * 10 + (c.toNat - 48)) 0

/-- Parse a nonempty all-digit string as a natural number; `none` otherwise. -/
def parseNatL (cs : List Char) : Option Nat :=
  if !cs.isEmpty && cs.all isDigitC then some (digitsVal cs) else none

/-- Python `int(s)` on an already-stripped string: optional sign then digits.
(Underscore digit separators, accepted by CPython, are not modelled; no input
in this development uses them.) -/
def parseIntL : List Char → Option Int
  | '-' :: t => (parseNatL t).map (fun n => -(n : Int))
  | '+' :: t => (parseNatL t).map (fun n => (n : Int))
  | t => (parseNatL t).map (fun n => (n : Int))

/-- Exponent tail of a float literal: optional sign then digits, scaling `m`. -/
def expTail : List Char → ℚ → Option ℚ
  | '-' :: t, m => (parseNatL t).map (fun k => m / (10 : ℚ) ^ k)
  | '+' :: t, m => (parseNatL t).map (fun k => m * (10 : ℚ) ^ k)
  | t, m => (parseNatL t).map (fun k => m * (10 : ℚ) ^ k)

/-- After the mantissa of a float literal: either the end of the string or an
`e`/`E` exponent part. -/
def parseExpPart : List Char → ℚ → Option ℚ
  | [], m => some m
  | 'e' :: t, m => expTail t m
  | 'E' :: t, m => expTail t m
  | _, _ => none

/-- Unsigned part of Python `float(s)`: digits with an optional fractional part
(at least one digit overall) and an optional exponent. -/
def parseUnsignedFloat (cs : List Char) : Option ℚ :=
  let ip := cs.takeWhile isDigitC
  let rest := cs.dropWhile isDigitC
  match rest with
  | '.' :: t =>
    let fp := t.takeWhile isDigitC
    let rest2 := t.dropWhile isDigitC
    if ip.isEmpty && fp.isEmpty then none
    else parseExpPart rest2 ((digitsVal ip : ℚ) + (digitsVal fp : ℚ) / (10 : ℚ) ^ fp.length)
  | _ => if ip.isEmpty then none else parseExpPart rest (digitsVal ip)

/-- Python `float(s)` on an already-stripped string, modelled exactly over ℚ.
(The literals `inf`, `infinity` and `nan` are outside the rational model and
are not parsed; no claim depends on them.) -/
def parseFloatL : List Char → Option ℚ
  | '-' :: t => (parseUnsignedFloat t).map (fun q => -q)
  | '+' :: t => parseUnsignedFloat t
  | t => parseUnsignedFloat t

/-- A cell value as it can arrive from the data editor or the CSV parser:
a string, a number (Python int or float, modelled as ℚ), or Python `None`. -/
inductive Value where
  | str : String → Value
  | num : ℚ → Value
  | null : Value
deriving DecidableEq, Repr

/-- One menu row, the shared row schema of the program: the dictionary keys
`kategori`, `nama`, `harga`; a missing key / `None` value is `Option.none`. -/
structure Row where
  kategori : Option String
  nama : Option String
  harga : Value
deriving DecidableEq, Repr

/-- The coercion `float(str(x).strip())` from `_to_number`:
`str` of a number round-trips, so a numeric value coerces to itself; a string
is stripped and float-parsed; `str(None) = "None"` fails the float parse. -/
def pyFloat : Value → Option ℚ
  | .num q => some q
  | .str s => parseFloatL (pyStripL s.data)
  | .null => none

/-- Function `_to_number` from main.py: tolerant numeric coercion, discarding values
that fail to coerce and negative results. -/
def _to_number (x : Value) : Option ℚ :=
  match pyFloat x with
  | some v => if 0 ≤ v then some v else none
  | none => none

/-- The normalized category of a row in `compute_totals`:
`(r.get("kategori") or "").strip() or "Tidak diketahui"`. -/
def catOf (r : Row) : String :=
  let c := pyStripL (r.kategori.getD "").data
  if c.isEmpty then "Tidak diketahui" else String.mk c

/-- The update `totals[cat] = totals.get(cat, 0.0) + val` on an insertion-ordered dict,
modelled as an association list: update in place, append new keys at the end. -/
def upsert : List (String × ℚ) → String → ℚ → List (String × ℚ)
  | [], k, v => [(k, v)]
  | (k0, v0) :: t, k, v =>
    if k0 = k then (k0, v0 + v) :: t else (k0, v0) :: upsert t k v

/-- The loop of `compute_totals`, processing rows in order. -/
def computeAux : List Row → List (String × ℚ) → ℚ → List (String × ℚ) × ℚ
  | [], totals, total_all => (totals, total_all)
  | r :: rs, totals, total_all =>
    match _to_number r.harga with
    | none => computeAux rs totals total_all
    | some v => computeAux rs (upsert totals (catOf r) v) (total_all + v)

/-- Function `compute_totals` from main.py: per-category totals (insertion-ordered
dict as association list) and the grand total. -/
def compute_totals (rows : List Row) : List (String × ℚ) × ℚ :=
  computeAux rows [] 0

/-! ### The CSV reader (`csv.reader` / `csv.DictReader` with delimiter `;`)

Fields are kept as `List Char` until rows are assembled.  The dialect is the
`excel` dialect used by the source: delimiter `;`, quote char `"`, doubled
quotes inside quoted fields, records separated by newlines (`\n`, `\r\n` or
`\r`); a quoted field may contain delimiters and newlines. -/

/-- How a field ended: at a `;`, at a record terminator, or at end of input. -/
inductive FieldEnd where
  | sep
  | nl
  | eof
deriving DecidableEq, Repr

/-- Consume the `\n` of a `\r\n` pair (after the `\r` has been read). -/
def dropLF : List Char → List Char
  | '\n' :: rest => rest
  | rest => rest

/-- Read an unquoted run of characters up to a delimiter, record end or EOF. -/
def readRaw : List Char → List Char × FieldEnd × List Char
  | [] => ([], FieldEnd.eof, [])
  | c :: rest =>
    if c = ';' then ([], FieldEnd.sep, rest)
    else if c = '\n' then ([], FieldEnd.nl, rest)
    else if c = '\r' then ([], FieldEnd.nl, dropLF rest)
    else
      let p := readRaw rest
      (c :: p.1, p.2.1, p.2.2)

/-- Read the body of a quoted field (opening quote already consumed): a
doubled quote is a literal quote, a single quote closes the field. -/
def readQuoted : List Char → List Char × List Char
  | [] => ([], [])
  | c :: rest =>
    if c = '"' then
      match rest with
      | [] => ([], [])
      | c2 :: rest2 =>
        if c2 = '"' then
          let p := readQuoted rest2
          ('"' :: p.1, p.2)
        else ([], rest)
    else
      let p := readQuoted rest
      (c :: p.1, p.2)

/-- Read one field: a field starting with `"` is quoted (any trailing run
before the delimiter is appended verbatim, as in the non-strict reader);
otherwise it is a raw run. -/
def readField (cs : List Char) : List Char × FieldEnd × List Char :=
  match cs with
  | [] => readRaw []
  | c :: rest =>
    if c = '"' then
      let q := readQuoted rest
      let p := readRaw q.2
      (q.1 ++ p.1, p.2.1, p.2.2)
    else readRaw (c :: rest)

/-- Read one record (fuelled; the fuel only needs to exceed the field count,
and callers pass the remaining input length). -/
def readRecordF : Nat → List Char → List (List Char) × List Char
  | 0, cs => ([], cs)
  | fuel + 1, cs =>
    let p := readField cs
    match p.2.1 with
    | FieldEnd.sep =>
      let q := readRecordF fuel p.2.2
      (p.1 :: q.1, q.2)
    | _ => ([p.1], p.2.2)

/-- Split the whole input into records (fuelled; each step consumes at least
one character, so any fuel above the input length is enough).  An empty line
yields the empty record `[]`, as `csv.reader` does. -/
def csvRecordsF : Nat → List Char → List (List (List Char))
  | 0, _ => []
  | fuel + 1, cs =>
    match cs with
    | [] => []
    | c :: rest =>
      if c = '\n' then [] :: csvRecordsF fuel rest
      else if c = '\r' then [] :: csvRecordsF fuel (dropLF rest)
      else
        let p := readRecordF (rest.length + 1) (c :: rest)
        p.1 :: csvRecordsF fuel p.2

/-- All records of a character stream. -/
def csvRecords (cs : List Char) : List (List (List Char)) :=
  csvRecordsF (cs.length + 1) cs

/-! ### `load_csv` (DictReader assembly) -/

/-- The `DictReader` row dictionary access: zip the header record with a data
record (a key missing from a short record is absent, extra fields are
dropped) and look the key up. -/
def dGet (header fields : List (List Char)) (k : List Char) : Option (List Char) :=
  (header.zip fields).lookup k

/-- The fallback `(row.get("harga") or "0")`: a missing value and the empty string (which
is falsy in Python) both fall back to `"0"`. -/
def fieldOrZero : Option (List Char) → List Char
  | Option.none => ['0']
  | some s => if s.isEmpty then ['0'] else s

/-- The harga cell of `load_csv`:
`int((row.get("harga") or "0").strip())` with `ValueError` degrading to 0. -/
def parseHarga (o : Option (List Char)) : Int :=
  (parseIntL (pyStripL (fieldOrZero o))).getD 0

/-- Assemble one `load_csv` output row from the header and one data record:
`kategori` and `nama` are stripped strings (missing values become `""`),
`harga` is the integer fallback parse. -/
def mkRow (header fields : List (List Char)) : Row :=
  { kategori := some (String.mk (pyStripL ((dGet header fields "kategori".data).getD [])))
    nama := some (String.mk (pyStripL ((dGet header fields "nama".data).getD [])))
    harga := Value.num ((parseHarga (dGet header fields "harga".data) : Int) : ℚ) }

/-- Function `load_csv` from main.py on already-decoded text: the first record is the
header, empty records are skipped (as `DictReader` does), and each remaining
record becomes a row. -/
def load_csv (text : String) : List Row :=
  match csvRecords text.data with
  | [] => []
  | header :: data => (data.filter (fun rcd => !rcd.isEmpty)).map (mkRow header)

/-- The built-in default dataset `SAMPLE_CSV`. -/
def SAMPLE_CSV : String :=
  "kategori;nama;harga\nMakanan;Ayam Bakar;25000\nMakanan;Nasi Goreng;18000\nMinuman;Es Teh;5000\nMinuman;Jus Alpukat;12000\n"

/-! ### The CSV writer (`DataFrame.to_csv(index=False, sep=';')`) -/

/-- Does a field need quoting under `QUOTE_MINIMAL`: it contains the
delimiter, the quote char or a line break. -/
def needsQuoteL (cs : List Char) : Bool :=
  cs.any (fun c => c == ';' || c == '"' || c == '\n' || c == '\r')

/-- Double every quote character (the body of a quoted field). -/
def escq : List Char → List Char
  | [] => []
  | c :: t => if c = '"' then '"' :: '"' :: escq t else c :: escq t

/-- Serialize one field, quoting minimally. -/
def writeField (cs : List Char) : List Char :=
  if needsQuoteL cs then '"' :: (escq cs ++ ['"']) else cs

/-- Serialize one three-field record followed by a newline. -/
def writeTriple (t : List Char × List Char × List Char) : List Char :=
  writeField t.1 ++ ';' :: (writeField t.2.1 ++ ';' :: (writeField t.2.2 ++ ['\n']))

/-- Serialize a list of three-field records. -/
def writeAll (ts : List (List Char × List Char × List Char)) : List Char :=
  (ts.map writeTriple).flatten

/-! ### Number rendering -/

/-- How many times `p` divides `n` (fuelled). -/
def countFactor : Nat → Nat → Nat → Nat
  | 0, _, _ => 0
  | fuel + 1, p, n =>
    if 2 ≤ p && n != 0 && n % p == 0 then countFactor fuel p (n / p) + 1 else 0

/-- Left-pad a digit list with zeros to width `k`. -/
def padZeros (cs : List Char) (k : Nat) : List Char :=
  List.replicate (k - cs.length) '0' ++ cs

/-- The `repr` of a Python float, for values in the exact-decimal range of the
rational model: integers print with a trailing `.0`, other terminating
decimals print with their shortest expansion.  (Floats whose shortest
round-trip repr is not the exact decimal of the modelled rational, and the
exponent-form ranges, are outside the model; no claim depends on them.) -/
def showFloat (q : ℚ) : String :=
  let sgn := if q < 0 then "-" else ""
  let n := q.num.natAbs
  let d := q.den
  if d = 1 then sgn ++ toString n ++ ".0"
  else
    let k := max (countFactor d 2 d) (countFactor d 5 d)
    if 10 ^ k % d = 0 then
      let m := n * (10 ^ k / d)
      sgn ++ toString (m / 10 ^ k) ++ "." ++ String.mk (padZeros (toString (m % 10 ^ k)).data k)
    else
      sgn ++ toString n ++ "/" ++ toString d

/-- Rendering of a cell in `to_csv`: numbers as their repr (integers without
a decimal point, matching an integer column), strings verbatim, `None`/NaN
as the empty cell. -/
def hargaCSV : Value → String
  | .num q => if q.den = 1 then toString q.num else showFloat q
  | .str s => s
  | .null => ""

/-- The three serialized cells of one row, in column order. -/
def rowTriple (r : Row) : List Char × List Char × List Char :=
  ((r.kategori.getD "").data, ((r.nama.getD "").data, (hargaCSV r.harga).data))

/-- The header record of the exported CSV. -/
def headerTriple : List Char × List Char × List Char :=
  ("kategori".data, ("nama".data, "harga".data))

/-- Function `convert_df_to_csv` from main.py: the current row collection as
semicolon-delimited text (an empty collection gives an empty DataFrame,
whose `to_csv` is a single newline). -/
def convert_df_to_csv (rows : List Row) : String :=
  if rows.isEmpty then "\n"
  else String.mk (writeAll (headerTriple :: rows.map rowTriple))

/-! ### JSON export (`json.dumps(summary_dict, indent=4)`) -/

/-- Lowercase hex digit. -/
def hexDigit (n : Nat) : Char :=
  if n < 10 then Char.ofNat (48 + n) else Char.ofNat (87 + n)

/-- Four lowercase hex digits. -/
def hex4 (n : Nat) : List Char :=
  [hexDigit (n / 4096 % 16), hexDigit (n / 256 % 16), hexDigit (n / 16 % 16), hexDigit (n % 16)]

/-- The `json.dumps` escaping of one character (`ensure_ascii` default: control
characters and non-ASCII escape, astral characters as surrogate pairs). -/
def escJsonChar (c : Char) : List Char :=
  if c = '"' then ['\\', '"']
  else if c = '\\' then ['\\', '\\']
  else if c = '\n' then ['\\', 'n']
  else if c = '\t' then ['\\', 't']
  else if c = '\r' then ['\\', 'r']
  else if c = Char.ofNat 8 then ['\\', 'b']
  else if c = Char.ofNat 12 then ['\\', 'f']
  else if c.toNat < 32 || c.toNat > 126 then
    if c.toNat < 65536 then '\\' :: 'u' :: hex4 c.toNat
    else
      ('\\' :: 'u' :: hex4 (55296 + (c.toNat - 65536) / 1024))
        ++ ('\\' :: 'u' :: hex4 (56320 + (c.toNat - 65536) % 1024))
  else [c]

/-- A JSON string literal. -/
def jsonStr (s : String) : String :=
  String.mk ('"' :: ((s.data.map escJsonChar).flatten ++ ['"']))

/-- Function `convert_summary_to_json` from main.py: the totals dict pretty-printed
with 4-space indentation (an empty dict prints as the two-character object).
The values are Python floats, so they render through the float repr. -/
def convert_summary_to_json (summary_dict : List (String × ℚ)) : String :=
  if summary_dict.isEmpty then "\x7b\x7d"
  else
    "\x7b\n"
      ++ String.intercalate ",\n"
          (summary_dict.map (fun kv => "    " ++ jsonStr kv.1 ++ ": " ++ showFloat kv.2))
      ++ "\n\x7d"

/-! ### The export gate -/

/-- Function `data_valid` from main.py:
`not current_df.empty and (total_all > 0 or not totals)` — the DataFrame
built from the row list is empty exactly when the list is. -/
def data_valid (rows : List Row) : Bool :=
  let p := compute_totals rows
  !rows.isEmpty && (decide (0 < p.2) || p.1.isEmpty)

/-! ### Specification-side sums -/

/-- The sum of the valid coerced prices of a row sequence (the spec's
"sum(valid coerced prices)"). -/
def validSum (rows : List Row) : ℚ :=
  (rows.filterMap (fun r => _to_number r.harga)).sum

/-- The sum of the values of a totals mapping. -/
def sumValues (l : List (String × ℚ)) : ℚ :=
  (l.map Prod.snd).sum

/-- The total looked up under a key, `0` when the key is absent. -/
def lookupQ : List (String × ℚ) → String → ℚ
  | [], _ => 0
  | (k0, v0) :: t, k => if k0 = k then v0 else lookupQ t k

/-- The part of the valid coerced prices contributed by rows of normalized
category `k`. -/
def catSum (k : String) : List Row → ℚ
  | [] => 0
  | r :: rs =>
    match _to_number r.harga with
    | none => catSum k rs
    | some v => (if catOf r = k then v else 0) + catSum k rs

/-! ### Aggregator lemmas -/

theorem to_number_nonneg (x : Value) (v : ℚ) (h : _to_number x = some v) : 0 ≤ v := by
  unfold _to_number at h
  cases hf : pyFloat x with
  | none => rw [hf] at h; simp at h
  | some w =>
    rw [hf] at h
    have h2 : (if 0 ≤ w then some w else (none : Option ℚ)) = some v := h
    by_cases hw : 0 ≤ w
    · rw [if_pos hw] at h2
      cases h2
      exact hw
    · rw [if_neg hw] at h2
      simp at h2

theorem to_number_neg (q : ℚ) (h : q < 0) : _to_number (Value.num q) = none := by
  simp [_to_number, pyFloat, not_le.mpr h]

theorem validSum_cons (r : Row) (rs : List Row) :
    validSum (r :: rs) = (match _to_number r.harga with
      | none => validSum rs
      | some v => v + validSum rs) := by
  cases h : _to_number r.harga <;> simp [validSum, List.filterMap_cons, h]

theorem computeAux_total (rows : List Row) :
    ∀ t a, (computeAux rows t a).2 = a + validSum rows := by
  induction rows with
  | nil => intro t a; simp [computeAux, validSum]
  | cons r rs ih =>
    intro t a
    cases h : _to_number r.harga with
    | none => simp [computeAux, h, ih, validSum_cons]
    | some v => simp [computeAux, h, ih, validSum_cons]; ring

theorem sumValues_cons (kv : String × ℚ) (l : List (String × ℚ)) :
    sumValues (kv :: l) = kv.2 + sumValues l := by
  simp [sumValues]

theorem sumValues_upsert (t : List (String × ℚ)) (k : String) (v : ℚ) :
    sumValues (upsert t k v) = sumValues t + v := by
  induction t with
  | nil => simp [upsert, sumValues]
  | cons kv t ih =>
    obtain ⟨k1, v1⟩ := kv
    by_cases h : k1 = k
    · simp only [upsert, if_pos h, sumValues_cons]
      ring
    · simp only [upsert, if_neg h, sumValues_cons, ih]
      ring

theorem computeAux_sumValues (rows : List Row) :
    ∀ t a, sumValues (computeAux rows t a).1 = sumValues t + validSum rows := by
  induction rows with
  | nil => intro t a; simp [computeAux, validSum]
  | cons r rs ih =>
    intro t a
    cases h : _to_number r.harga with
    | none => simp [computeAux, h, ih, validSum_cons]
    | some v => simp [computeAux, h, ih, sumValues_upsert, validSum_cons]; ring

theorem lookupQ_upsert (t : List (String × ℚ)) (k0 k : String) (v : ℚ) :
    lookupQ (upsert t k0 v) k = if k0 = k then lookupQ t k + v else lookupQ t k := by
  induction t with
  | nil =>
    by_cases h : k0 = k <;> simp [upsert, lookupQ, h]
  | cons kv t ih =>
    obtain ⟨k1, v1⟩ := kv
    by_cases h1 : k1 = k0
    · subst h1
      by_cases h2 : k1 = k
      · simp [upsert, lookupQ, h2]
      · simp [upsert, lookupQ, h2]
    · by_cases h2 : k1 = k
      · have hne : k0 ≠ k := fun e => h1 (h2.trans e.symm)
        have hne2 : k ≠ k0 := fun e => hne e.symm
        simp [upsert, if_neg h1, lookupQ, h2, hne, hne2]
      · simp [upsert, if_neg h1, lookupQ, h2, ih]

theorem computeAux_lookup (rows : List Row) (k : String) :
    ∀ t a, lookupQ (computeAux rows t a).1 k = lookupQ t k + catSum k rows := by
  induction rows with
  | nil => intro t a; simp [computeAux, catSum]
  | cons r rs ih =>
    intro t a
    cases h : _to_number r.harga with
    | none => simp [computeAux, h, ih, catSum]
    | some v =>
      simp only [computeAux, h, ih, catSum, lookupQ_upsert]
      by_cases hc : catOf r = k
      · rw [if_pos hc, if_pos hc]; ring
      · rw [if_neg hc, if_neg hc]; ring

theorem catSum_append (k : String) (xs ys : List Row) :
    catSum k (xs ++ ys) = catSum k xs + catSum k ys := by
  induction xs with
  | nil => simp [catSum]
  | cons r rs ih =>
    cases h : _to_number r.harga with
    | none => simp [catSum, h, ih]
    | some v =>
      simp [catSum, h, ih]
      ring

theorem computeAux_skip (r : Row) (post : List Row) (h : _to_number r.harga = none) :
    ∀ pre t a, computeAux (pre ++ r :: post) t a = computeAux (pre ++ post) t a := by
  intro pre
  induction pre with
  | nil => intro t a; simp [computeAux, h]
  | cons p ps ih =>
    intro t a
    cases hp : _to_number p.harga <;> simp [computeAux, hp, ih]

theorem upsert_nonneg (t : List (String × ℚ)) (k : String) (v : ℚ)
    (ht : ∀ kv ∈ t, 0 ≤ kv.2) (hv : 0 ≤ v) :
    ∀ kv ∈ upsert t k v, 0 ≤ kv.2 := by
  induction t with
  | nil => intro kv hkv; simp [upsert] at hkv; simp [hkv, hv]
  | cons kv0 t ih =>
    intro kv hkv
    by_cases h : kv0.1 = k
    · rw [upsert] at hkv
      rw [if_pos h] at hkv
      rcases List.mem_cons.mp hkv with h1 | h1
      · subst h1
        exact add_nonneg (ht kv0 (List.mem_cons_self kv0 t)) hv
      · exact ht kv (List.mem_cons_of_mem kv0 h1)
    · rw [upsert] at hkv
      rw [if_neg h] at hkv
      rcases List.mem_cons.mp hkv with h1 | h1
      · subst h1; exact ht kv0 (List.mem_cons_self kv0 t)
      · exact ih (fun x hx => ht x (List.mem_cons_of_mem kv0 hx)) kv h1

theorem computeAux_nonneg (rows : List Row) :
    ∀ t a, (∀ kv ∈ t, 0 ≤ kv.2) → 0 ≤ a →
      (∀ kv ∈ (computeAux rows t a).1, 0 ≤ kv.2) ∧ 0 ≤ (computeAux rows t a).2 := by
  induction rows with
  | nil => intro t a ht ha; exact ⟨ht, ha⟩
  | cons r rs ih =>
    intro t a ht ha
    cases h : _to_number r.harga with
    | none => simpa [computeAux, h] using ih t a ht ha
    | some v =>
      have hv : 0 ≤ v := to_number_nonneg r.harga v h
      simpa [computeAux, h] using
        ih (upsert t (catOf r) v) (a + v) (upsert_nonneg t (catOf r) v ht hv)
          (add_nonneg ha hv)

theorem catOf_empty (r : Row) (h : pyStripL (r.kategori.getD "").data = []) :
    catOf r = "Tidak diketahui" := by
  unfold catOf
  rw [h]
  rfl

theorem load_csv_harga_int (text : String) (r : Row) (h : r ∈ load_csv text) :
    ∃ n : Int, r.harga = Value.num (n : ℚ) := by
  unfold load_csv at h
  cases hrec : csvRecords text.data with
  | nil => rw [hrec] at h; simp at h
  | cons header data =>
    rw [hrec] at h
    obtain ⟨fields, hf, hr⟩ := List.mem_map.mp h
    exact ⟨parseHarga (dGet header fields "harga".data), by rw [← hr]; rfl⟩

/-! ## Claim C1 — the sentinel category for blank/missing `kategori`

The claim names the sentinel key "Unknown"; the code's sentinel is the
Indonesian string "Tidak diketahui" (line 83 of main.py), which is what the
returned mapping (and hence the JSON export) actually contains. -/

/-- Claim C1 counterexample: a row with an empty `kategori` and price 5 is
aggregated, but its price appears under the key "Tidak diketahui", and no
"Unknown" key exists in the returned mapping. -/
theorem unknown_sentinel_cex :
    (compute_totals [{ kategori := some "", nama := some "x", harga := Value.num 5 }]).1.lookup
        "Unknown" = Option.none
      ∧ (compute_totals [{ kategori := some "", nama := some "x", harga := Value.num 5 }]).1.lookup
        "Tidak diketahui" = some 5 := by
  exact ⟨by decide, by decide⟩

/-- Claim C1 (amended): for every row whose `kategori`, after trimming, is
empty (or missing), `compute_totals` places that row's coerced price under
the sentinel key "Tidak diketahui": the total under that key grows by exactly
the row's price. -/
theorem empty_category_under_sentinel (pre post : List Row) (r : Row) (v : ℚ)
    (hcat : pyStripL (r.kategori.getD "").data = [])
    (hval : _to_number r.harga = some v) :
    lookupQ (compute_totals (pre ++ r :: post)).1 "Tidak diketahui"
      = lookupQ (compute_totals (pre ++ post)).1 "Tidak diketahui" + v := by
  unfold compute_totals
  rw [computeAux_lookup, computeAux_lookup, catSum_append, catSum_append]
  have hc : catOf r = "Tidak diketahui" := catOf_empty r hcat
  simp only [catSum, hval, hc, if_pos rfl, if_true]
  ring

/-- Witness for `empty_category_under_sentinel` at a concrete row with a
missing category and price 5. -/
theorem empty_category_under_sentinel_witness :
    lookupQ (compute_totals [Row.mk Option.none (some "x") (Value.num 5)]).1 "Tidak diketahui"
      = lookupQ (compute_totals []).1 "Tidak diketahui" + 5 :=
  empty_category_under_sentinel [] [] _ 5 (by decide) (by decide)

/-! ## Claim C2 — parser output and the price non-negativity invariant

The claim is false as stated: Python `int()` accepts a sign, so `load_csv`
emits the row's `harga` as `-500` for the field "-500".  What does hold:
every emitted price is an integer, and a negative one is excluded from
totals by the aggregator. -/

/-- Claim C2 counterexample: `load_csv` emits a row whose price is the
negative number -500, violating the claimed `harga ≥ 0` invariant of the
parser's output. -/
theorem parser_negative_price_cex :
    (load_csv "kategori;nama;harga\nMakanan;X;-500\n").map Row.harga = [Value.num (-500)]
      ∧ ((-500 : ℚ) < 0) :=
  ⟨by decide, by decide⟩

/-- Claim C2 (amended): every row produced by `load_csv` has an integer
price — possibly negative, since the parse-time `int()` accepts a sign — and
any negative price is treated as invalid by the aggregation-time coercion,
so it is excluded from totals (where the spec's invariant lives). -/
theorem parser_price_integer_invariant (text : String) (r : Row) (h : r ∈ load_csv text) :
    ∃ n : Int, r.harga = Value.num (n : ℚ) ∧ ((n : ℚ) < 0 → _to_number r.harga = none) := by
  obtain ⟨n, hn⟩ := load_csv_harga_int text r h
  exact ⟨n, hn, fun hneg => by rw [hn]; exact to_number_neg _ hneg⟩

/-- Witness for `parser_price_integer_invariant` on the -500 input. -/
theorem parser_price_integer_invariant_witness :
    ∃ n : Int, (Row.mk (some "Makanan") (some "X") (Value.num (-500))).harga
        = Value.num (n : ℚ)
      ∧ ((n : ℚ) < 0 →
          _to_number (Row.mk (some "Makanan") (some "X") (Value.num (-500))).harga = none) :=
  parser_price_integer_invariant "kategori;nama;harga\nMakanan;X;-500\n" _ (by decide)

/-! ## Claim C3 — invalid-price rows are excluded entirely -/

/-- Claim C3: a row whose price fails the tolerant coercion (stringify,
trim, float-parse) or coerces to a negative number contributes nothing to
`compute_totals`: dropping it leaves both the per-category totals and the
grand total unchanged. -/
theorem invalid_price_row_excluded (pre post : List Row) (r : Row)
    (h : pyFloat r.harga = Option.none ∨ ∃ q, pyFloat r.harga = some q ∧ q < 0) :
    compute_totals (pre ++ r :: post) = compute_totals (pre ++ post) := by
  have hn : _to_number r.harga = none := by
    rcases h with h | ⟨q, hq, hlt⟩
    · unfold _to_number
      rw [h]
    · unfold _to_number
      rw [hq]
      exact if_neg (not_le.mpr hlt)
  unfold compute_totals
  exact computeAux_skip r post hn pre [] 0

/-- Witness for `invalid_price_row_excluded`: the rows with price "-500"
(coerces negative) and "abc" (fails to coerce) are both excluded. -/
theorem invalid_price_row_excluded_witness :
    compute_totals [{ kategori := some "Makanan", nama := some "a", harga := Value.str "-500" }]
        = compute_totals []
      ∧ compute_totals [{ kategori := some "Makanan", nama := some "b", harga := Value.str "abc" }]
        = compute_totals [] :=
  ⟨invalid_price_row_excluded [] [] _ (Or.inr ⟨-500, by decide, by decide⟩),
   invalid_price_row_excluded [] [] _ (Or.inl (by decide))⟩

/-! ## Claim C4 — grand total decomposition -/

/-- Claim C4: the grand total equals the sum of the valid coerced prices of
all rows, and the values of the category-totals mapping sum to the grand
total (exactly, in the rational model, hence within any tolerance). -/
theorem grand_total_decomposition (rows : List Row) :
    (compute_totals rows).2 = validSum rows
      ∧ sumValues (compute_totals rows).1 = (compute_totals rows).2 := by
  constructor
  · simpa using computeAux_total rows [] 0
  · show sumValues (computeAux rows [] 0).1 = (computeAux rows [] 0).2
    rw [computeAux_sumValues rows [] 0, computeAux_total rows [] 0]
    simp [sumValues]

/-! ## Claim C7 — the export gate -/

/-- Claim C7: export is offered exactly when the row collection is non-empty
and (the grand total is positive or the category-totals mapping is empty). -/
theorem export_gate_iff (rows : List Row) :
    data_valid rows = true
      ↔ (rows ≠ [] ∧ (0 < (compute_totals rows).2 ∨ (compute_totals rows).1 = [])) := by
  simp [data_valid, List.isEmpty_iff, List.isEmpty_eq_true]

/-! ## CSV reader/writer lemmas (towards claims C5, C6, C9) -/

theorem dropLF_len (rest : List Char) : (dropLF rest).length ≤ rest.length := by
  unfold dropLF
  split
  · exact Nat.le_succ _
  · exact le_rfl

theorem readRaw_len (cs : List Char) : (readRaw cs).2.2.length ≤ cs.length := by
  induction cs with
  | nil => simp [readRaw]
  | cons c rest ih =>
    simp only [readRaw]
    split_ifs with h1 h2 h3
    · simp
    · simp
    · have := dropLF_len rest
      simp
      omega
    · show (readRaw rest).2.2.length ≤ (c :: rest).length
      simp
      omega

theorem readRaw_len_cons (c : Char) (rest : List Char) :
    (readRaw (c :: rest)).2.2.length ≤ rest.length := by
  simp only [readRaw]
  split_ifs with h1 h2 h3
  · simp
  · simp
  · exact dropLF_len rest
  · exact readRaw_len rest

theorem readQuoted_cons_quote_quote (c2 : Char) (rest2 : List Char) (h : c2 = '"') :
    readQuoted ('"' :: c2 :: rest2) = ('"' :: (readQuoted rest2).1, (readQuoted rest2).2) := by
  subst h
  rfl

theorem readQuoted_cons_quote_other (c2 : Char) (rest2 : List Char) (h : c2 ≠ '"') :
    readQuoted ('"' :: c2 :: rest2) = ([], c2 :: rest2) := by
  rw [readQuoted.eq_def]
  simp [h]

theorem readQuoted_cons_other (c : Char) (rest : List Char) (h : c ≠ '"') :
    readQuoted (c :: rest) = (c :: (readQuoted rest).1, (readQuoted rest).2) := by
  rw [readQuoted.eq_def]
  simp [h]

theorem readQuoted_len_aux :
    ∀ (n : Nat) (cs : List Char), cs.length ≤ n → (readQuoted cs).2.length ≤ cs.length := by
  intro n
  induction n with
  | zero =>
    intro cs h
    have hcs : cs = [] := List.eq_nil_of_length_eq_zero (Nat.le_zero.mp h)
    subst hcs
    exact le_rfl
  | succ n ih =>
    intro cs h
    cases cs with
    | nil => exact le_rfl
    | cons c rest =>
      by_cases h1 : c = '"'
      · subst h1
        cases rest with
        | nil => exact Nat.zero_le 1
        | cons c2 rest2 =>
          by_cases h2 : c2 = '"'
          · rw [readQuoted_cons_quote_quote c2 rest2 h2]
            have hr := ih rest2 (by simp at h; omega)
            simp at hr ⊢
            omega
          · rw [readQuoted_cons_quote_other c2 rest2 h2]
            simp
      · rw [readQuoted_cons_other c rest h1]
        have hr := ih rest (by simp at h; omega)
        simp at hr ⊢
        omega

theorem readQuoted_len (cs : List Char) : (readQuoted cs).2.length ≤ cs.length :=
  readQuoted_len_aux cs.length cs le_rfl

theorem readField_len_cons (c : Char) (rest : List Char) :
    (readField (c :: rest)).2.2.length ≤ rest.length := by
  simp only [readField]
  split_ifs with h1
  · show ((readRaw (readQuoted rest).2).2).2.length ≤ rest.length
    exact le_trans (readRaw_len _) (readQuoted_len rest)
  · exact readRaw_len_cons c rest

theorem readRecordF_len :
    ∀ (fuel : Nat) (cs : List Char), (readRecordF fuel cs).2.length ≤ cs.length := by
  intro fuel
  induction fuel with
  | zero => intro cs; simp [readRecordF]
  | succ fuel ih =>
    intro cs
    have hf : (readField cs).2.2.length ≤ cs.length := by
      cases cs with
      | nil => simp [readField, readRaw]
      | cons c rest => exact le_trans (readField_len_cons c rest) (by simp)
    simp only [readRecordF]
    split
    · exact le_trans (ih _) hf
    · exact hf

theorem readRecordF_len_cons (fuel : Nat) (c : Char) (rest : List Char) :
    (readRecordF (fuel + 1) (c :: rest)).2.length ≤ rest.length := by
  have hf := readField_len_cons c rest
  simp only [readRecordF]
  split
  · exact le_trans (readRecordF_len fuel _) hf
  · exact hf

theorem csvRecordsF_irrel :
    ∀ (n f1 f2 : Nat) (cs : List Char), cs.length ≤ n →
      cs.length < f1 → cs.length < f2 → csvRecordsF f1 cs = csvRecordsF f2 cs := by
  intro n
  induction n with
  | zero =>
    intro f1 f2 cs hn h1 h2
    have hcs : cs = [] := List.eq_nil_of_length_eq_zero (Nat.le_zero.mp hn)
    subst hcs
    cases f1 with
    | zero => omega
    | succ f1 =>
      cases f2 with
      | zero => omega
      | succ f2 => simp [csvRecordsF]
  | succ n ih =>
    intro f1 f2 cs hn h1 h2
    cases f1 with
    | zero => omega
    | succ f1 =>
      cases f2 with
      | zero => omega
      | succ f2 =>
        cases cs with
        | nil => simp [csvRecordsF]
        | cons c rest =>
          have hrest : rest.length ≤ n := by simp at hn; omega
          simp only [csvRecordsF]
          by_cases hc1 : c = '\n'
          · rw [if_pos hc1, if_pos hc1,
              ih f1 f2 rest hrest (by simp at h1; omega) (by simp at h2; omega)]
          · rw [if_neg hc1, if_neg hc1]
            by_cases hc2 : c = '\r'
            · rw [if_pos hc2, if_pos hc2]
              have hd := dropLF_len rest
              rw [ih f1 f2 (dropLF rest) (by omega) (by simp at h1; omega)
                (by simp at h2; omega)]
            · rw [if_neg hc2, if_neg hc2]
              have hp := readRecordF_len_cons rest.length c rest
              rw [ih f1 f2 (readRecordF (rest.length + 1) (c :: rest)).2 (by omega)
                (by simp at h1; omega) (by simp at h2; omega)]

theorem needsQuote_false_iff (s : List Char) :
    needsQuoteL s = false ↔ ∀ x ∈ s, x ≠ ';' ∧ x ≠ '"' ∧ x ≠ '\n' ∧ x ≠ '\r' := by
  simp [needsQuoteL, List.any_eq_false, and_assoc]

theorem readRaw_cons_other (c : Char) (rest : List Char)
    (h1 : c ≠ ';') (h2 : c ≠ '\n') (h3 : c ≠ '\r') :
    readRaw (c :: rest) = (c :: (readRaw rest).1, (readRaw rest).2.1, (readRaw rest).2.2) := by
  simp [readRaw, h1, h2, h3]

theorem readRaw_clean_sep (s rest : List Char)
    (h : ∀ x ∈ s, x ≠ ';' ∧ x ≠ '"' ∧ x ≠ '\n' ∧ x ≠ '\r') :
    readRaw (s ++ ';' :: rest) = (s, FieldEnd.sep, rest) := by
  induction s with
  | nil => rfl
  | cons c s2 ih =>
    have hc := h c (List.mem_cons_self c s2)
    have hs : ∀ x ∈ s2, x ≠ ';' ∧ x ≠ '"' ∧ x ≠ '\n' ∧ x ≠ '\r' :=
      fun x hx => h x (List.mem_cons_of_mem c hx)
    rw [List.cons_append, readRaw_cons_other c _ hc.1 hc.2.2.1 hc.2.2.2, ih hs]

theorem readRaw_clean_nl (s rest : List Char)
    (h : ∀ x ∈ s, x ≠ ';' ∧ x ≠ '"' ∧ x ≠ '\n' ∧ x ≠ '\r') :
    readRaw (s ++ '\n' :: rest) = (s, FieldEnd.nl, rest) := by
  induction s with
  | nil => rfl
  | cons c s2 ih =>
    have hc := h c (List.mem_cons_self c s2)
    have hs : ∀ x ∈ s2, x ≠ ';' ∧ x ≠ '"' ∧ x ≠ '\n' ∧ x ≠ '\r' :=
      fun x hx => h x (List.mem_cons_of_mem c hx)
    rw [List.cons_append, readRaw_cons_other c _ hc.1 hc.2.2.1 hc.2.2.2, ih hs]

theorem readQuoted_esc (s : List Char) :
    ∀ (rest : List Char), (∀ t, rest ≠ '"' :: t) →
      readQuoted (escq s ++ '"' :: rest) = (s, rest) := by
  induction s with
  | nil =>
    intro rest h
    cases rest with
    | nil => rfl
    | cons c2 rest2 =>
      have hc2 : c2 ≠ '"' := fun e => h rest2 (by rw [e])
      simp only [escq, List.nil_append]
      exact readQuoted_cons_quote_other c2 rest2 hc2
  | cons c s2 ih =>
    intro rest h
    by_cases hc : c = '"'
    · subst hc
      rw [show escq ('"' :: s2) = '"' :: '"' :: escq s2 from rfl, List.cons_append,
        List.cons_append, readQuoted_cons_quote_quote '"' (escq s2 ++ '"' :: rest) rfl,
        ih rest h]
    · have e : escq (c :: s2) = c :: escq s2 := by simp [escq, hc]
      rw [e, List.cons_append, readQuoted_cons_other c (escq s2 ++ '"' :: rest) hc, ih rest h]

theorem readField_quote (rest : List Char) :
    readField ('"' :: rest)
      = ((readQuoted rest).1 ++ (readRaw (readQuoted rest).2).1,
         (readRaw (readQuoted rest).2).2.1, (readRaw (readQuoted rest).2).2.2) := rfl

theorem readField_w_sep (s rest : List Char) :
    readField (writeField s ++ ';' :: rest) = (s, FieldEnd.sep, rest) := by
  by_cases hq : needsQuoteL s
  · have e : writeField s ++ ';' :: rest = '"' :: (escq s ++ '"' :: ';' :: rest) := by
      simp [writeField, hq]
    rw [e, readField_quote, readQuoted_esc s (';' :: rest) (fun t ht => by simp at ht)]
    show (s ++ ([] : List Char), FieldEnd.sep, rest) = (s, FieldEnd.sep, rest)
    simp
  · have hnq : needsQuoteL s = false := by simpa using hq
    have hs := (needsQuote_false_iff s).mp hnq
    have e : writeField s ++ ';' :: rest = s ++ ';' :: rest := by simp [writeField, hnq]
    rw [e]
    cases s with
    | nil => rfl
    | cons c s2 =>
      have hc := hs c (List.mem_cons_self c s2)
      simp only [List.cons_append, readField, if_neg hc.2.1]
      rw [← List.cons_append, readRaw_clean_sep (c :: s2) rest hs]

theorem readField_w_nl (s rest : List Char) :
    readField (writeField s ++ '\n' :: rest) = (s, FieldEnd.nl, rest) := by
  by_cases hq : needsQuoteL s
  · have e : writeField s ++ '\n' :: rest = '"' :: (escq s ++ '"' :: '\n' :: rest) := by
      simp [writeField, hq]
    rw [e, readField_quote, readQuoted_esc s ('\n' :: rest) (fun t ht => by simp at ht)]
    show (s ++ ([] : List Char), FieldEnd.nl, rest) = (s, FieldEnd.nl, rest)
    simp
  · have hnq : needsQuoteL s = false := by simpa using hq
    have hs := (needsQuote_false_iff s).mp hnq
    have e : writeField s ++ '\n' :: rest = s ++ '\n' :: rest := by simp [writeField, hnq]
    rw [e]
    cases s with
    | nil => rfl
    | cons c s2 =>
      have hc := hs c (List.mem_cons_self c s2)
      simp only [List.cons_append, readField, if_neg hc.2.1]
      rw [← List.cons_append, readRaw_clean_nl (c :: s2) rest hs]

theorem readRecordF_triple (f : Nat) (t : List Char × List Char × List Char)
    (tail : List Char) :
    readRecordF (f + 3) (writeTriple t ++ tail) = ([t.1, t.2.1, t.2.2], tail) := by
  have e : writeTriple t ++ tail
      = writeField t.1 ++ ';' :: (writeField t.2.1 ++ ';' :: (writeField t.2.2 ++ '\n' :: tail)) := by
    simp [writeTriple]
  rw [e]
  show readRecordF (f + 1 + 1 + 1) _ = _
  simp only [readRecordF, readField_w_sep, readField_w_nl]

theorem writeTriple_ne_nil (t : List Char × List Char × List Char) : writeTriple t ≠ [] := by
  by_cases hq : needsQuoteL t.1
  · simp [writeTriple, writeField, hq]
  · have hnq : needsQuoteL t.1 = false := by simpa using hq
    cases h1 : t.1 with
    | nil => simp [writeTriple, writeField, hnq, h1]
    | cons c s2 => simp [writeTriple, writeField, hnq, h1]

theorem writeTriple_head (t : List Char × List Char × List Char) (c : Char) (w : List Char)
    (hw : writeTriple t = c :: w) : c ≠ '\n' ∧ c ≠ '\r' := by
  by_cases hq : needsQuoteL t.1
  · unfold writeTriple writeField at hw
    rw [if_pos hq, List.cons_append] at hw
    injection hw with hhead htail
    subst hhead
    exact ⟨by decide, by decide⟩
  · have hnq : needsQuoteL t.1 = false := by simpa using hq
    have hs := (needsQuote_false_iff t.1).mp hnq
    unfold writeTriple writeField at hw
    rw [if_neg hq] at hw
    cases h1 : t.1 with
    | nil =>
      rw [h1, List.nil_append] at hw
      injection hw with hhead htail
      subst hhead
      exact ⟨by decide, by decide⟩
    | cons c0 s2 =>
      rw [h1, List.cons_append] at hw
      injection hw with hhead htail
      have hc0 := hs c0 (h1 ▸ List.mem_cons_self c0 s2)
      subst hhead
      exact ⟨hc0.2.2.1, hc0.2.2.2⟩

theorem writeTriple_length (t : List Char × List Char × List Char) :
    3 ≤ (writeTriple t).length := by
  simp [writeTriple]
  omega

theorem writeAll_cons (t : List Char × List Char × List Char)
    (ts : List (List Char × List Char × List Char)) :
    writeAll (t :: ts) = writeTriple t ++ writeAll ts := by
  simp [writeAll]

theorem writeAll_records (ts : List (List Char × List Char × List Char)) :
    ∀ (rest : List Char) (fuel : Nat), (writeAll ts ++ rest).length < fuel →
      csvRecordsF fuel (writeAll ts ++ rest)
        = ts.map (fun t => [t.1, t.2.1, t.2.2]) ++ csvRecordsF (rest.length + 1) rest := by
  induction ts with
  | nil =>
    intro rest fuel h
    simp only [writeAll, List.map_nil, List.flatten_nil, List.nil_append] at h ⊢
    exact csvRecordsF_irrel rest.length fuel (rest.length + 1) rest le_rfl h (by omega)
  | cons t ts ih =>
    intro rest fuel h
    rw [writeAll_cons, List.append_assoc] at h ⊢
    have hlen : (writeTriple t).length + (writeAll ts ++ rest).length < fuel := by
      simpa [List.length_append] using h
    have h3 := writeTriple_length t
    cases hw : writeTriple t with
    | nil => exact absurd hw (writeTriple_ne_nil t)
    | cons c w =>
      have hc := writeTriple_head t c w hw
      simp only [List.cons_append]
      cases fuel with
      | zero => omega
      | succ fuel =>
        simp only [csvRecordsF, if_neg hc.1, if_neg hc.2]
        have hwlen : (w ++ (writeAll ts ++ rest)).length + 1
            = ((w ++ (writeAll ts ++ rest)).length - 2) + 3 := by
          have : 2 ≤ (w ++ (writeAll ts ++ rest)).length := by
            rw [hw] at h3
            simp only [List.length_cons] at h3
            simp [List.length_append]
            omega
          omega
        rw [hwlen, ← List.cons_append, ← hw, readRecordF_triple]
        have hnext : (writeAll ts ++ rest).length < fuel := by omega
        show [t.1, t.2.1, t.2.2] :: csvRecordsF fuel (writeAll ts ++ rest)
            = List.map (fun t => [t.1, t.2.1, t.2.2]) (t :: ts)
              ++ csvRecordsF (rest.length + 1) rest
        rw [ih rest fuel hnext, List.map_cons, List.cons_append]

theorem csvRecords_writeAll (ts : List (List Char × List Char × List Char)) :
    csvRecords (writeAll ts) = ts.map (fun t => [t.1, t.2.1, t.2.2]) := by
  have h := writeAll_records ts [] ((writeAll ts).length + 1) (by simp)
  simpa [csvRecords, csvRecordsF] using h

theorem mkRow_triple (k n h : List Char) :
    mkRow ["kategori".data, "nama".data, "harga".data] [k, n, h]
      = Row.mk (some (String.mk (pyStripL k))) (some (String.mk (pyStripL n)))
          (Value.num ((parseHarga (some h) : Int) : ℚ)) := rfl

/-! ## Claim C10 — non-negativity of the aggregator's outputs -/

/-- Claim C10: every per-category total returned by `compute_totals` is
non-negative, and so is the grand total, because only non-negative coerced
prices are accumulated. -/
theorem totals_nonneg (rows : List Row) :
    ((compute_totals rows).1.all (fun kv => decide (0 ≤ kv.2))) = true
      ∧ 0 ≤ (compute_totals rows).2 := by
  have h := computeAux_nonneg rows [] 0 (by simp) le_rfl
  refine ⟨?_, h.2⟩
  rw [List.all_eq_true]
  intro kv hkv
  exact decide_eq_true (h.1 kv hkv)

/-! ## Claim C5 — the default dataset -/

/-- Claim C5: parsing the built-in default dataset and aggregating yields
exactly the totals Makanan 43000 and Minuman 17000, grand total 60000. -/
theorem default_dataset_totals :
    compute_totals (load_csv SAMPLE_CSV)
      = ([("Makanan", 43000), ("Minuman", 17000)], 60000) := by
  have h : load_csv SAMPLE_CSV
      = [Row.mk (some "Makanan") (some "Ayam Bakar") (Value.num 25000),
         Row.mk (some "Makanan") (some "Nasi Goreng") (Value.num 18000),
         Row.mk (some "Minuman") (some "Es Teh") (Value.num 5000),
         Row.mk (some "Minuman") (some "Jus Alpukat") (Value.num 12000)] := by decide
  have v1 : _to_number (Value.num 25000) = some 25000 := by decide
  have v2 : _to_number (Value.num 18000) = some 18000 := by decide
  have v3 : _to_number (Value.num 5000) = some 5000 := by decide
  have v4 : _to_number (Value.num 12000) = some 12000 := by decide
  have c1 : catOf (Row.mk (some "Makanan") (some "Ayam Bakar") (Value.num 25000))
      = "Makanan" := by decide
  have c2 : catOf (Row.mk (some "Makanan") (some "Nasi Goreng") (Value.num 18000))
      = "Makanan" := by decide
  have c3 : catOf (Row.mk (some "Minuman") (some "Es Teh") (Value.num 5000))
      = "Minuman" := by decide
  have c4 : catOf (Row.mk (some "Minuman") (some "Jus Alpukat") (Value.num 12000))
      = "Minuman" := by decide
  rw [h]
  simp [compute_totals, computeAux, v1, v2, v3, v4, c1, c2, c3, c4, upsert]
  norm_num

/-! ## Claim C6 — parse-time price fallback -/

/-- Claim C6: when the `harga` field of a data line is missing, empty or not
an integer, `load_csv` sets that row's price to 0, and the row is still
emitted — every non-empty data record yields exactly one output row, so
parsing always completes (the embedding is a total function: no exception
escapes the field parse). -/
theorem price_parse_fallback_zero (text : String) (o : Option (List Char))
    (h : parseIntL (pyStripL (fieldOrZero o)) = Option.none) :
    parseHarga o = 0
      ∧ (load_csv text).length
          = (((csvRecords text.data).drop 1).filter (fun rcd => !rcd.isEmpty)).length := by
  constructor
  · unfold parseHarga
    rw [h]
    rfl
  · unfold load_csv
    cases hrec : csvRecords text.data with
    | nil => simp
    | cons header data => simp

/-- Witness for `price_parse_fallback_zero` on the non-numeric field "abc". -/
theorem price_parse_fallback_zero_witness :
    parseHarga (some "abc".data) = 0
      ∧ (load_csv "kategori;nama;harga\nMakanan;X;abc\n").length
          = (((csvRecords "kategori;nama;harga\nMakanan;X;abc\n".data).drop 1).filter
              (fun rcd => !rcd.isEmpty)).length :=
  price_parse_fallback_zero "kategori;nama;harga\nMakanan;X;abc\n" (some "abc".data)
    (by decide)

/-! ## Claim C8 — JSON export bytes and determinism -/

/-- Claim C8: `convert_summary_to_json` is a pure function (equal inputs give
byte-identical output — string equality implies equality of the UTF-8
encodings), and on the mapping Makanan 43000.0 / Minuman 17000.0 it produces
exactly the claimed 4-space-indented JSON object. -/
theorem json_export_deterministic_bytes (d1 d2 : List (String × ℚ)) (h : d1 = d2) :
    convert_summary_to_json d1 = convert_summary_to_json d2
      ∧ convert_summary_to_json [("Makanan", 43000), ("Minuman", 17000)]
          = "\x7b\n    \"Makanan\": 43000.0,\n    \"Minuman\": 17000.0\n\x7d" :=
  ⟨by rw [h], by decide⟩

/-- Witness for `json_export_deterministic_bytes`. -/
theorem json_export_deterministic_bytes_witness :
    convert_summary_to_json [("Makanan", 43000), ("Minuman", 17000)]
      = "\x7b\n    \"Makanan\": 43000.0,\n    \"Minuman\": 17000.0\n\x7d" :=
  (json_export_deterministic_bytes [] [] rfl).2

/-! ## Claim C9 — CSV export / reparse roundtrip

As stated the claim is false: `load_csv` strips surrounding whitespace from
`kategori` and `nama`, so a name with surrounding spaces is not reproduced.
The roundtrip reproduces the whitespace-trimmed category/name pairs, in
order, for every row collection (quoting handles embedded delimiters,
quotes and newlines). -/

/-- Claim C9 counterexample: a row whose name has surrounding spaces is not
reproduced by export-then-reparse. -/
theorem csv_roundtrip_cex :
    (load_csv (convert_df_to_csv
        [Row.mk (some "Makanan") (some " Es Teh ") (Value.num 5000)])).map
        (fun r => (r.kategori, r.nama))
      ≠ [(some "Makanan", some " Es Teh ")] := by decide

/-- Claim C9 (amended): for every row collection, serializing with
`convert_df_to_csv` and reparsing with `load_csv` reproduces the sequence of
whitespace-trimmed `kategori`/`nama` pairs, in order. -/
theorem csv_roundtrip_trimmed_pairs (rows : List Row) :
    (load_csv (convert_df_to_csv rows)).map (fun r => (r.kategori.getD "", r.nama.getD ""))
      = rows.map (fun r => (pyStrip (r.kategori.getD ""), pyStrip (r.nama.getD ""))) := by
  cases rows with
  | nil => decide
  | cons r rs =>
    have hconv : convert_df_to_csv (r :: rs)
        = String.mk (writeAll (headerTriple :: (r :: rs).map rowTriple)) := by
      simp [convert_df_to_csv]
    rw [hconv]
    unfold load_csv
    rw [show (String.mk (writeAll (headerTriple :: (r :: rs).map rowTriple))).data
        = writeAll (headerTriple :: (r :: rs).map rowTriple) from rfl]
    rw [csvRecords_writeAll, List.map_cons]
    show (((List.map (fun t => [t.1, t.2.1, t.2.2]) ((r :: rs).map rowTriple)).filter
        (fun rcd => !rcd.isEmpty)).map
          (mkRow ["kategori".data, "nama".data, "harga".data])).map
        (fun s => (s.kategori.getD "", s.nama.getD ""))
      = (r :: rs).map (fun s => (pyStrip (s.kategori.getD ""), pyStrip (s.nama.getD "")))
    have hfil : (List.map (fun t => [t.1, t.2.1, t.2.2]) ((r :: rs).map rowTriple)).filter
        (fun rcd => !rcd.isEmpty)
        = List.map (fun t => [t.1, t.2.1, t.2.2]) ((r :: rs).map rowTriple) := by
      apply List.filter_eq_self.mpr
      intro a ha
      obtain ⟨t, ht, rfl⟩ := List.mem_map.mp ha
      simp
    rw [hfil, List.map_map, List.map_map, List.map_map]
    apply List.map_congr_left
    intro x hx
    rfl

end Coba1
